import Mathlib

/-
Verification of the FD-Tracker dependency tracking plugins.

The repository ships two headers:
  src/dependency_tracker/dependency_tracker_targets.h  (Target identity model,
    TargetSource / TargetSink accounting structures)
  src/dependency_file/dependency_file_def.h            (Dependency_File plugin
    structure, taint activation callback, oracle / resolver declarations)
Only declarations and field layouts are under src; every function body lives
in .cpp files that are not part of the repository snapshot.  Where a body is
missing, the corresponding Lean definition is modelled from the
natural-language specification (and from the doc comments in the headers) and
is marked as such in its doc comment.  Field widths (uint32_t counters,
unsigned short port, the UINT32_MAX default of enableTaintAt) come directly
from the headers and are modelled with explicit modular reduction.
-/

/-- Reduction modulo 2^32, the behaviour of the uint32_t counters declared in
dependency_tracker_targets.h. -/
def u32 (n : Nat) : Nat := n % 4294967296

/-- Reduction modulo 2^16, the behaviour of the unsigned short port field
declared in dependency_tracker_targets.h line 431. -/
def u16 (n : Nat) : Nat := n % 65536

/-- The closed set of Target variants of dependency_tracker_targets.h:
TargetFile carries a file name, TargetNetwork an ip string and a port stored
in an unsigned short field. -/
inductive Target where
  | file (fileName : String)
  | network (ip : String) (port : Nat)
deriving DecidableEq

/-- Modelled from the spec: the body of TargetFile::toString /
TargetNetwork::toString is not under src (only the declarations are).  Per
the header docs, a file target displays its file name and a network target
displays the string ip::port. -/
def Target.toString : Target → String
  | .file n => n
  | .network ip p => ip ++ "::" ++ Nat.repr p

/-- Modelled from the spec: the bodies of TargetFile::operator bool and
TargetNetwork::operator bool are not under src.  Per the header docs, a file
target is valid iff its file name is non-empty and a network target is valid
iff its ip string is non-empty. -/
def Target.isValid : Target → Bool
  | .file n => decide (n ≠ "")
  | .network ip _ => decide (ip ≠ "")

/-- Modelled from the spec: the bodies of TargetFile::operator== and
TargetNetwork::operator== are not under src.  Per the spec, equality is total
and variant-exhaustive: two targets are equal only if they are the same
variant with identical identity fields; cross-variant comparisons are always
false. -/
def Target.beq : Target → Target → Bool
  | .file a, .file b => decide (a = b)
  | .network ip1 p1, .network ip2 p2 => decide (ip1 = ip2) && decide (p1 = p2)
  | .file _, .network _ _ => false
  | .network _ _, .file _ => false

/-- The port stored inside a target; 0 for a file target. -/
def Target.portOf : Target → Nat
  | .file _ => 0
  | .network _ p => p

/-- The TargetFile(const std::string&) constructor. -/
def mkTargetFile (name : String) : Target := Target.file name

/-- The default TargetFile() constructor: per the header doc it creates a
new, invalid TargetFile, so the std::string field is the empty string. -/
def mkTargetFileDefault : Target := Target.file ""

/-- The TargetNetwork(const std::string&, const unsigned int&) constructor:
the unsigned int port argument is stored into the unsigned short port field
(dependency_tracker_targets.h line 431), which reduces it modulo 2^16. -/
def mkTargetNetwork (ip : String) (port : Nat) : Target :=
  Target.network ip (u16 port)

/-- The default TargetNetwork() constructor: per the header doc it creates a
new, invalid TargetNetwork (empty ip). -/
def mkTargetNetworkDefault : Target := Target.network "" 0

/-- C1: Target equality is total and variant-exhaustive: operator== returns
true exactly when both operands are the same variant with identical identity
fields (File: path; Network: ip and port); any comparison between a File
target and a Network target is false; File "/a" is not equal to
Network "/a" 0, while two File targets with identical paths are equal. -/
theorem fd_C1 (t₁ t₂ : Target) (a ip : String) (p : Nat) :
    (Target.beq t₁ t₂ = true ↔ t₁ = t₂) ∧
    Target.beq (Target.file a) (Target.network ip p) = false ∧
    Target.beq (Target.network ip p) (Target.file a) = false ∧
    Target.beq (mkTargetFile "/a") (mkTargetNetwork "/a" 0) = false ∧
    Target.beq (mkTargetFile a) (mkTargetFile a) = true := by
  refine ⟨?_, rfl, rfl, rfl, by simp [mkTargetFile, Target.beq]⟩
  cases t₁ <;> cases t₂ <;> simp [Target.beq]

/-- C5: validity of a Target is decided solely by its identity string being
non-empty: a File target is valid iff its file name is non-empty, a Network
target is valid iff its ip string is non-empty (the port does not affect
validity), and a default-constructed instance of either variant is
invalid. -/
theorem fd_C5 (n ip : String) (p q : Nat) :
    (Target.isValid (mkTargetFile n) = true ↔ n ≠ "") ∧
    (Target.isValid (Target.network ip p) = true ↔ ip ≠ "") ∧
    Target.isValid (Target.network ip p) = Target.isValid (Target.network ip q) ∧
    Target.isValid mkTargetFileDefault = false ∧
    Target.isValid mkTargetNetworkDefault = false := by
  refine ⟨by simp [mkTargetFile, Target.isValid], by simp [Target.isValid], rfl, rfl, rfl⟩

/-- C9: constructing a Network target with a port value p stores p reduced
modulo 2^16 (the constructor takes an unsigned int but the field is an
unsigned short), so two Network targets with equal ip whose ports differ by a
multiple of 2^16 are the same stored value, compare equal, and display the
same truncated port. -/
theorem fd_C9 (ip : String) (p k : Nat) :
    (mkTargetNetwork ip p).portOf = p % 65536 ∧
    mkTargetNetwork ip (p + 65536 * k) = mkTargetNetwork ip p ∧
    Target.beq (mkTargetNetwork ip (p + 65536 * k)) (mkTargetNetwork ip p) = true ∧
    Target.toString (mkTargetNetwork ip (p + 65536 * k))
      = Target.toString (mkTargetNetwork ip p) := by
  have hmod : (p + 65536 * k) % 65536 = p % 65536 := Nat.add_mul_mod_self_left p 65536 k
  have hmk : mkTargetNetwork ip (p + 65536 * k) = mkTargetNetwork ip p := by
    simp [mkTargetNetwork, u16, hmod]
  refine ⟨rfl, hmk, ?_, by rw [hmk]⟩
  rw [hmk]
  simp [mkTargetNetwork, Target.beq]

/-- The TargetSource accounting structure of dependency_tracker_targets.h
(lines 295-303): the attached target, the immutable index in the sources
vector, and three uint32_t counters (modelled as Nat updated modulo 2^32). -/
structure TargetSource where
  target : Target
  index : Nat
  labeledBytes : Nat
  totalBytes : Nat
  totalReads : Nat

/-- The TargetSink accounting structure of dependency_tracker_targets.h
(lines 188-199): the attached target, the immutable index in the sinks
vector, the std::map from source index to tainted bytes written (an absent
key means 0, so it is modelled as a total function defaulting to 0), and
three uint32_t counters. -/
structure TargetSink where
  target : Target
  index : Nat
  labeledBytes : Nat → Nat
  totalBytes : Nat
  totalTaintBytes : Nat
  totalWrites : Nat

/-- Modelled from the spec: the body of the TargetSource constructor is not
under src; all counters of a freshly registered source start at zero. -/
def TargetSource.make (t : Target) (i : Nat) : TargetSource :=
  ⟨t, i, 0, 0, 0⟩

/-- Modelled from the spec: the body of the TargetSink constructor is not
under src; all counters of a freshly registered sink start at zero and its
per-source map is empty (every lookup yields 0). -/
def TargetSink.make (t : Target) (i : Nat) : TargetSink :=
  ⟨t, i, fun _ => 0, 0, 0, 0⟩

/-- Modelled from the spec: the append-then-freeze endpoint registry of spec
section 4.2; the registry implementation is not under src. -/
structure Registry where
  sources : List Target
  sinks : List Target
  frozen : Bool

/-- The empty, unfrozen registry of the build phase. -/
def Registry.empty : Registry := ⟨[], [], false⟩

/-- Modelled from the spec: registerSource(Target) appends the target and
returns its dense zero-based index; registration after the registry is
frozen is rejected (none models the fatal configuration error). -/
def registerSource (r : Registry) (t : Target) : Registry × Option Nat :=
  if r.frozen then (r, none)
  else ({ r with sources := r.sources ++ [t] }, some r.sources.length)

/-- Modelled from the spec: registerSink(Target), exactly like
registerSource but on the sink list. -/
def registerSink (r : Registry) (t : Target) : Registry × Option Nat :=
  if r.frozen then (r, none)
  else ({ r with sinks := r.sinks ++ [t] }, some r.sinks.length)

/-- Registering a whole configuration list of source targets in caller
supplied order, starting from the empty registry. -/
def registryOf (ts : List Target) : Registry :=
  ts.foldl (fun r t => (registerSource r t).1) Registry.empty

/-- Builds the TargetSource list of a session: element number i of the
configuration list receives index n + i. -/
def initSourcesAux : Nat → List Target → List TargetSource
  | _, [] => []
  | n, t :: ts => TargetSource.make t n :: initSourcesAux (n + 1) ts

/-- Builds the TargetSink list of a session. -/
def initSinksAux : Nat → List Target → List TargetSink
  | _, [] => []
  | n, t :: ts => TargetSink.make t n :: initSinksAux (n + 1) ts

/-- The Dependency Accounting Engine state of spec sections 3 and 4.3: the
activation threshold and flag, the frozen source and sink lists, and the
three session-wide flags (dependency_file_def.h lines 39-41). -/
structure EngineState where
  enableTaintAt : Nat
  active : Bool
  sources : List TargetSource
  sinks : List TargetSink
  sawOpenOfSource : Bool
  sawReadOfSource : Bool
  sawWriteOfSink : Bool

/-- The engine state at session start: frozen registry handed over, all
counters zero, taint INACTIVE. -/
def initState (th : Nat) (srcs sinks : List Target) : EngineState :=
  ⟨th, false, initSourcesAux 0 srcs, initSinksAux 0 sinks, false, false, false⟩

/-- One event of the ordered stream driving the engine.  Oracle responses
travel with the event, since the taint oracle is an external collaborator:
a read carries the number of bytes the oracle actually labeled, a write
carries the per-source-index query counts and the once-per-byte taint count.
A translate event carries the executed-instruction count observed at a
block-translation boundary. -/
inductive Event where
  | etranslate (count : Nat)
  | eopen (identity : String)
  | eread (identity : String) (length : Nat) (labeled : Nat)
  | ewrite (identity : String) (length : Nat) (q : List Nat) (taint : Nat)

/-- Modelled from the spec: the body of on_before_block_translate is not
under src (dependency_file_def.h lines 132-147 declare it).  Per the spec
the engine compares the current executed-instruction count against the
configured threshold on every new translation unit and transitions to ACTIVE
when the threshold is reached; once ACTIVE it stays ACTIVE. -/
def on_before_block_translate (enableTaintAt instrCount : Nat) (enabled : Bool) : Bool :=
  if enabled then true else decide (enableTaintAt ≤ instrCount)

/-- Replaces the element at the given position, leaving the list unchanged
when the position is out of range (the behaviour of updating one element of
the sources or sinks vector in place). -/
def listModify (f : α → α) : Nat → List α → List α
  | _, [] => []
  | 0, x :: xs => f x :: xs
  | n + 1, x :: xs => x :: listModify f n xs

/-- The engine matches a resolved identity string against a registered
source by comparing it with the display string of the target. -/
def matchesSource (identity : String) (s : TargetSource) : Bool :=
  decide (Target.toString s.target = identity)

/-- The engine matches a resolved identity string against a registered
sink by comparing it with the display string of the target. -/
def matchesSink (identity : String) (k : TargetSink) : Bool :=
  decide (Target.toString k.target = identity)

/-- Modelled from the spec: counter update of a matched source on
onRead(identity, addr, length), spec section 4.3: always totalBytes +=
length and totalReads += 1; if ACTIVE, labeledBytes += L where L is the
labeled-byte count of the oracle clamped to the event length.  All counters are
uint32_t, hence the modular reduction. -/
def readUpdate (active : Bool) (len lab : Nat) (s : TargetSource) : TargetSource :=
  { s with
    totalBytes := u32 (s.totalBytes + len),
    totalReads := u32 (s.totalReads + 1),
    labeledBytes := if active then u32 (s.labeledBytes + min lab len) else s.labeledBytes }

/-- Modelled from the spec: counter update of a matched sink on
onWrite(identity, addr, length), spec section 4.3: always totalBytes +=
length and totalWrites += 1; if ACTIVE, for every registered source index j
with a positive clamped query count q_j the map entry labeledBytes[j] grows
by q_j, and totalTaintBytes grows by the clamped once-per-byte taint
count.  writeLab is the updated per-source map: entry j of a sink map grows
by the clamped query count of source j. -/
def writeLab (numSources len : Nat) (q : List Nat) (old : Nat → Nat) (j : Nat) : Nat :=
  if j < numSources ∧ 0 < min (q.getD j 0) len
  then u32 (old j + min (q.getD j 0) len)
  else old j

/-- Modelled from the spec: the counter update of a matched sink on
onWrite, using writeLab for the per-source map when ACTIVE. -/
def writeUpdate (active : Bool) (numSources len : Nat) (q : List Nat) (taint : Nat)
    (k : TargetSink) : TargetSink :=
  { k with
    totalBytes := u32 (k.totalBytes + len),
    totalWrites := u32 (k.totalWrites + 1),
    totalTaintBytes := if active then u32 (k.totalTaintBytes + min taint len)
                       else k.totalTaintBytes,
    labeledBytes := if active then writeLab numSources len q k.labeledBytes
      else k.labeledBytes }

/-- Modelled from the spec: onOpen(identity) of spec section 4.3.  An empty
resolution is treated identically to no registry match (spec section 4.4);
on a source match only the sawOpenOfSource flag is set, no counters
change. -/
def onOpen (identity : String) (st : EngineState) : EngineState :=
  if identity = "" then st
  else match st.sources.findIdx? (matchesSource identity) with
    | none => st
    | some _ => { st with sawOpenOfSource := true }

/-- Modelled from the spec: onRead(identity, addr, length) of spec section
4.3.  An empty resolution is treated identically to no registry match; on a
source match the matched TargetSource is updated and sawReadOfSource is
set. -/
def onRead (identity : String) (len lab : Nat) (st : EngineState) : EngineState :=
  if identity = "" then st
  else match st.sources.findIdx? (matchesSource identity) with
    | none => st
    | some i =>
      { st with
        sources := listModify (readUpdate st.active len lab) i st.sources,
        sawReadOfSource := true }

/-- Modelled from the spec: onWrite(identity, addr, length) of spec section
4.3.  An empty resolution is treated identically to no registry match; on a
sink match the matched TargetSink is updated and sawWriteOfSink is set. -/
def onWrite (identity : String) (len : Nat) (q : List Nat) (taint : Nat)
    (st : EngineState) : EngineState :=
  if identity = "" then st
  else match st.sinks.findIdx? (matchesSink identity) with
    | none => st
    | some k =>
      { st with
        sinks := listModify (writeUpdate st.active st.sources.length len q taint) k st.sinks,
        sawWriteOfSink := true }

/-- One step of the Dependency Accounting Engine on one event. -/
def step (st : EngineState) : Event → EngineState
  | .etranslate c =>
      { st with active := on_before_block_translate st.enableTaintAt c st.active }
  | .eopen identity => onOpen identity st
  | .eread identity len lab => onRead identity len lab st
  | .ewrite identity len q taint => onWrite identity len q taint st

/-- Running the engine over an ordered event stream. -/
def runEvents (st : EngineState) : List Event → EngineState
  | [] => st
  | e :: evs => runEvents (step st e) evs

/-- The payload length of an event: reads and writes carry their byte
length, translate and open events carry none. -/
def evLen : Event → Nat
  | .etranslate _ => 0
  | .eopen _ => 0
  | .eread _ len _ => len
  | .ewrite _ len _ _ => len

/-- Total payload length of an event stream. -/
def lenSum : List Event → Nat
  | [] => 0
  | e :: evs => evLen e + lenSum evs

/-- Checks that every translate event of the stream carries an instruction
count strictly below the given threshold. -/
def translateCountsBelow (th : Nat) : List Event → Bool
  | [] => true
  | Event.etranslate c :: evs => decide (c < th) && translateCountsBelow th evs
  | _ :: evs => translateCountsBelow th evs

/-- The placeholder source used for out-of-range lookups; all its counters
are zero. -/
def dSource : TargetSource := TargetSource.make (Target.file "") 0

/-- The placeholder sink used for out-of-range lookups; all its counters are
zero. -/
def dSink : TargetSink := TargetSink.make (Target.file "") 0

/-- labeledBytes of source number i (0 when i is out of range). -/
def srcLabeled (st : EngineState) (i : Nat) : Nat := (st.sources.getD i dSource).labeledBytes

/-- totalBytes of source number i (0 when i is out of range). -/
def srcTotal (st : EngineState) (i : Nat) : Nat := (st.sources.getD i dSource).totalBytes

/-- index of source number i (0 when i is out of range). -/
def srcIndex (st : EngineState) (i : Nat) : Nat := (st.sources.getD i dSource).index

/-- totalBytes of sink number k (0 when k is out of range). -/
def sinkTotal (st : EngineState) (k : Nat) : Nat := (st.sinks.getD k dSink).totalBytes

/-- totalTaintBytes of sink number k (0 when k is out of range). -/
def sinkTaint (st : EngineState) (k : Nat) : Nat := (st.sinks.getD k dSink).totalTaintBytes

/-- Entry j of the per-source labeled-byte map of sink number k (0 when k is
out of range or the entry is absent). -/
def sinkLab (st : EngineState) (k j : Nat) : Nat := (st.sinks.getD k dSink).labeledBytes j

/-- index of sink number k (0 when k is out of range). -/
def sinkIndex (st : EngineState) (k : Nat) : Nat := (st.sinks.getD k dSink).index

theorem listModify_length (f : α → α) (n : Nat) (xs : List α) :
    (listModify f n xs).length = xs.length := by
  induction xs generalizing n with
  | nil => cases n <;> rfl
  | cons x xs ih =>
    cases n with
    | zero => rfl
    | succ m => simp [listModify, ih]

theorem listModify_getD (f : α → α) (n m : Nat) (xs : List α) (d : α) :
    (listModify f n xs).getD m d =
      if m = n ∧ m < xs.length then f (xs.getD m d) else xs.getD m d := by
  induction xs generalizing n m with
  | nil => simp [listModify]
  | cons x xs ih =>
    cases n with
    | zero =>
      cases m with
      | zero => simp [listModify]
      | succ m' => simp [listModify]
    | succ n' =>
      cases m with
      | zero => simp [listModify]
      | succ m' =>
        simp only [listModify, List.getD_cons_succ, ih, List.length_cons]
        by_cases h1 : m' = n' ∧ m' < xs.length
        · rw [if_pos h1, if_pos ⟨by omega, by omega⟩]
        · rw [if_neg h1, if_neg (by omega)]

theorem getD_prop {p : α → Prop} (xs : List α) (d : α) (i : Nat)
    (hxs : ∀ x ∈ xs, p x) (hd : p d) : p (xs.getD i d) := by
  induction xs generalizing i with
  | nil => simpa [List.getD] using hd
  | cons x xs ih =>
    cases i with
    | zero => exact hxs x (by simp)
    | succ j =>
      simp only [List.getD_cons_succ]
      exact ih j (fun y hy => hxs y (by simp [hy]))

theorem onOpen_parts (identity : String) (st : EngineState) :
    (onOpen identity st).sources = st.sources ∧
    (onOpen identity st).sinks = st.sinks ∧
    (onOpen identity st).active = st.active ∧
    (onOpen identity st).enableTaintAt = st.enableTaintAt := by
  unfold onOpen
  split
  · exact ⟨rfl, rfl, rfl, rfl⟩
  · split <;> exact ⟨rfl, rfl, rfl, rfl⟩

theorem onRead_parts (identity : String) (len lab : Nat) (st : EngineState) :
    (onRead identity len lab st).sinks = st.sinks ∧
    (onRead identity len lab st).active = st.active ∧
    (onRead identity len lab st).enableTaintAt = st.enableTaintAt ∧
    (onRead identity len lab st).sources.length = st.sources.length := by
  unfold onRead
  split
  · exact ⟨rfl, rfl, rfl, rfl⟩
  · split
    · exact ⟨rfl, rfl, rfl, rfl⟩
    · exact ⟨rfl, rfl, rfl, listModify_length _ _ _⟩

theorem onWrite_parts (identity : String) (len : Nat) (q : List Nat) (taint : Nat)
    (st : EngineState) :
    (onWrite identity len q taint st).sources = st.sources ∧
    (onWrite identity len q taint st).active = st.active ∧
    (onWrite identity len q taint st).enableTaintAt = st.enableTaintAt ∧
    (onWrite identity len q taint st).sinks.length = st.sinks.length := by
  unfold onWrite
  split
  · exact ⟨rfl, rfl, rfl, rfl⟩
  · split
    · exact ⟨rfl, rfl, rfl, rfl⟩
    · exact ⟨rfl, rfl, rfl, listModify_length _ _ _⟩

theorem step_enable (st : EngineState) (e : Event) :
    (step st e).enableTaintAt = st.enableTaintAt := by
  cases e with
  | etranslate c => rfl
  | eopen identity => exact (onOpen_parts identity st).2.2.2
  | eread identity len lab => exact (onRead_parts identity len lab st).2.2.1
  | ewrite identity len q taint => exact (onWrite_parts identity len q taint st).2.2.1

theorem run_enable (evs : List Event) (st : EngineState) :
    (runEvents st evs).enableTaintAt = st.enableTaintAt := by
  induction evs generalizing st with
  | nil => rfl
  | cons e evs ih => rw [runEvents, ih, step_enable]

theorem step_sources_length (st : EngineState) (e : Event) :
    (step st e).sources.length = st.sources.length := by
  cases e with
  | etranslate c => rfl
  | eopen identity => simp only [step]; rw [(onOpen_parts identity st).1]
  | eread identity len lab => exact (onRead_parts identity len lab st).2.2.2
  | ewrite identity len q taint =>
      simp only [step]; rw [(onWrite_parts identity len q taint st).1]

theorem step_sinks_length (st : EngineState) (e : Event) :
    (step st e).sinks.length = st.sinks.length := by
  cases e with
  | etranslate c => rfl
  | eopen identity => simp only [step]; rw [(onOpen_parts identity st).2.1]
  | eread identity len lab => simp only [step]; rw [(onRead_parts identity len lab st).1]
  | ewrite identity len q taint => exact (onWrite_parts identity len q taint st).2.2.2

theorem u32_le (n : Nat) : u32 n ≤ n := Nat.mod_le n 4294967296

theorem u32_eq_of_lt {n : Nat} (h : n < 4294967296) : u32 n = n := Nat.mod_eq_of_lt h

theorem runEvents_append (st : EngineState) (evs1 evs2 : List Event) :
    runEvents st (evs1 ++ evs2) = runEvents (runEvents st evs1) evs2 := by
  induction evs1 generalizing st with
  | nil => rfl
  | cons e evs ih => simp only [List.cons_append, runEvents]; exact ih (step st e)

theorem lenSum_append (evs1 evs2 : List Event) :
    lenSum (evs1 ++ evs2) = lenSum evs1 + lenSum evs2 := by
  induction evs1 with
  | nil => simp [lenSum]
  | cons e evs ih =>
    simp only [List.cons_append, lenSum, List.append_eq]
    rw [ih]; omega

theorem step_src (st : EngineState) (e : Event) (i : Nat)
    (hL : srcLabeled st i ≤ srcTotal st i)
    (h : srcTotal st i + evLen e < 4294967296) :
    srcLabeled (step st e) i ≤ srcTotal (step st e) i ∧
    srcTotal st i ≤ srcTotal (step st e) i ∧
    srcLabeled st i ≤ srcLabeled (step st e) i ∧
    srcTotal (step st e) i ≤ srcTotal st i + evLen e := by
  cases e with
  | etranslate c =>
    exact ⟨hL, le_rfl, le_rfl, Nat.le_add_right _ _⟩
  | eopen identity =>
    have hs : (step st (Event.eopen identity)).sources = st.sources := by
      simp only [step]; exact (onOpen_parts identity st).1
    simp only [srcLabeled, srcTotal, hs] at *
    exact ⟨hL, le_rfl, le_rfl, Nat.le_add_right _ _⟩
  | ewrite identity len q taint =>
    have hs : (step st (Event.ewrite identity len q taint)).sources = st.sources := by
      simp only [step]; exact (onWrite_parts identity len q taint st).1
    simp only [srcLabeled, srcTotal, hs] at *
    exact ⟨hL, le_rfl, le_rfl, Nat.le_add_right _ _⟩
  | eread identity len lab =>
    simp only [step, onRead]
    split
    · exact ⟨hL, le_rfl, le_rfl, Nat.le_add_right _ _⟩
    · split
      · exact ⟨hL, le_rfl, le_rfl, Nat.le_add_right _ _⟩
      · rename_i i0 hfind
        simp only [srcLabeled, srcTotal, evLen] at h hL ⊢
        simp only [listModify_getD]
        by_cases hc : i = i0 ∧ i < st.sources.length
        · rw [if_pos hc]
          simp only [readUpdate]
          have hmin : min lab len ≤ len := Nat.min_le_right _ _
          have ht : (st.sources.getD i dSource).totalBytes + len < 4294967296 := h
          have htot : u32 ((st.sources.getD i dSource).totalBytes + len)
              = (st.sources.getD i dSource).totalBytes + len := u32_eq_of_lt ht
          cases ha : st.active with
          | false =>
            rw [if_neg (by simp)]
            rw [htot]
            exact ⟨by omega, by omega, le_rfl, le_rfl⟩
          | true =>
            rw [if_pos rfl]
            have hl : (st.sources.getD i dSource).labeledBytes + min lab len < 4294967296 := by
              omega
            rw [htot, u32_eq_of_lt hl]
            exact ⟨by omega, by omega, by omega, le_rfl⟩
        · rw [if_neg hc]
          exact ⟨hL, le_rfl, le_rfl, Nat.le_add_right _ _⟩

theorem run_src (evs : List Event) (st : EngineState) (i : Nat)
    (hL : srcLabeled st i ≤ srcTotal st i)
    (h : srcTotal st i + lenSum evs < 4294967296) :
    srcLabeled (runEvents st evs) i ≤ srcTotal (runEvents st evs) i ∧
    srcTotal st i ≤ srcTotal (runEvents st evs) i ∧
    srcLabeled st i ≤ srcLabeled (runEvents st evs) i ∧
    srcTotal (runEvents st evs) i ≤ srcTotal st i + lenSum evs := by
  induction evs generalizing st with
  | nil => exact ⟨hL, le_rfl, le_rfl, Nat.le_add_right _ _⟩
  | cons e evs ih =>
    simp only [runEvents]
    simp only [lenSum] at h
    have h1 : srcTotal st i + evLen e < 4294967296 := by omega
    obtain ⟨a1, a2, a3, a4⟩ := step_src st e i hL h1
    have h2 : srcTotal (step st e) i + lenSum evs < 4294967296 := by omega
    obtain ⟨b1, b2, b3, b4⟩ := ih (step st e) a1 h2
    exact ⟨b1, le_trans a2 b2, le_trans a3 b3, by simp only [lenSum]; omega⟩

theorem mem_initSourcesAux {x : TargetSource} (n : Nat) (ts : List Target)
    (hx : x ∈ initSourcesAux n ts) : ∃ t i, x = TargetSource.make t i := by
  induction ts generalizing n with
  | nil => simp [initSourcesAux] at hx
  | cons t ts ih =>
    simp only [initSourcesAux, List.mem_cons] at hx
    cases hx with
    | inl hh => exact ⟨t, n, hh⟩
    | inr hh => exact ih (n + 1) hh

theorem mem_initSinksAux {x : TargetSink} (n : Nat) (ts : List Target)
    (hx : x ∈ initSinksAux n ts) : ∃ t i, x = TargetSink.make t i := by
  induction ts generalizing n with
  | nil => simp [initSinksAux] at hx
  | cons t ts ih =>
    simp only [initSinksAux, List.mem_cons] at hx
    cases hx with
    | inl hh => exact ⟨t, n, hh⟩
    | inr hh => exact ih (n + 1) hh

theorem init_src_zero (th : Nat) (srcs sinks : List Target) (i : Nat) :
    srcLabeled (initState th srcs sinks) i = 0 ∧
    srcTotal (initState th srcs sinks) i = 0 := by
  have := getD_prop (p := fun s : TargetSource => s.labeledBytes = 0 ∧ s.totalBytes = 0)
    (initSourcesAux 0 srcs) dSource i
    (fun x hx => by obtain ⟨t, j, rfl⟩ := mem_initSourcesAux 0 srcs hx
                    exact ⟨rfl, rfl⟩)
    ⟨rfl, rfl⟩
  exact this

theorem init_sink_zero (th : Nat) (srcs sinks : List Target) (k j : Nat) :
    sinkLab (initState th srcs sinks) k j = 0 ∧
    sinkTaint (initState th srcs sinks) k = 0 ∧
    sinkTotal (initState th srcs sinks) k = 0 := by
  have := getD_prop
    (p := fun s : TargetSink => s.labeledBytes j = 0 ∧ s.totalTaintBytes = 0 ∧ s.totalBytes = 0)
    (initSinksAux 0 sinks) dSink k
    (fun x hx => by obtain ⟨t, m, rfl⟩ := mem_initSinksAux 0 sinks hx
                    exact ⟨rfl, rfl, rfl⟩)
    ⟨rfl, rfl, rfl⟩
  exact this

/-- C2 (amended): for every TargetSource, across any sequence of engine
events whose total read/write payload stays below 2^32 (so that the uint32_t
counters never wrap), labeledBytes is at most totalBytes at every point, and
both labeledBytes and totalBytes are monotonically non-decreasing along the
run. -/
theorem fd_C2_amended (th : Nat) (srcs sinks : List Target)
    (evs1 evs2 : List Event) (i : Nat)
    (h : lenSum (evs1 ++ evs2) < 4294967296) :
    srcLabeled (runEvents (initState th srcs sinks) (evs1 ++ evs2)) i
      ≤ srcTotal (runEvents (initState th srcs sinks) (evs1 ++ evs2)) i ∧
    srcTotal (runEvents (initState th srcs sinks) evs1) i
      ≤ srcTotal (runEvents (initState th srcs sinks) (evs1 ++ evs2)) i ∧
    srcLabeled (runEvents (initState th srcs sinks) evs1) i
      ≤ srcLabeled (runEvents (initState th srcs sinks) (evs1 ++ evs2)) i := by
  obtain ⟨hz1, hz2⟩ := init_src_zero th srcs sinks i
  rw [lenSum_append] at h
  have h1 : srcTotal (initState th srcs sinks) i + lenSum evs1 < 4294967296 := by omega
  obtain ⟨a1, a2, a3, a4⟩ := run_src evs1 (initState th srcs sinks) i (by omega) h1
  have h2 : srcTotal (runEvents (initState th srcs sinks) evs1) i + lenSum evs2
      < 4294967296 := by omega
  obtain ⟨b1, b2, b3, b4⟩ := run_src evs2 (runEvents (initState th srcs sinks) evs1) i a1 h2
  rw [runEvents_append]
  exact ⟨b1, b2, b3⟩

/-- C2 is refuted as universally stated: the uint32_t totalBytes counter of
a TargetSource wraps modulo 2^32, so after two onRead events of length 2^31
on the matched source its totalBytes has decreased from 2^31 to 0 — the
counters are not monotonically non-decreasing over arbitrary sequences. -/
theorem fd_C2_counterexample :
    srcTotal (runEvents (initState 0 [mkTargetFile "/a"] [])
        [Event.eread "/a" 2147483648 0, Event.eread "/a" 2147483648 0]) 0
      < srcTotal (runEvents (initState 0 [mkTargetFile "/a"] [])
        [Event.eread "/a" 2147483648 0]) 0 := by decide

/-- Witness for fd_C2_amended at a concrete input. -/
theorem fd_C2_witness :
    lenSum ([Event.etranslate 0, Event.eread "/a" 5 3] ++ [Event.eread "/a" 7 10])
        < 4294967296 ∧
    (srcLabeled (runEvents (initState 0 [mkTargetFile "/a"] [])
        ([Event.etranslate 0, Event.eread "/a" 5 3] ++ [Event.eread "/a" 7 10])) 0
      ≤ srcTotal (runEvents (initState 0 [mkTargetFile "/a"] [])
        ([Event.etranslate 0, Event.eread "/a" 5 3] ++ [Event.eread "/a" 7 10])) 0 ∧
    srcTotal (runEvents (initState 0 [mkTargetFile "/a"] [])
        [Event.etranslate 0, Event.eread "/a" 5 3]) 0
      ≤ srcTotal (runEvents (initState 0 [mkTargetFile "/a"] [])
        ([Event.etranslate 0, Event.eread "/a" 5 3] ++ [Event.eread "/a" 7 10])) 0 ∧
    srcLabeled (runEvents (initState 0 [mkTargetFile "/a"] [])
        [Event.etranslate 0, Event.eread "/a" 5 3]) 0
      ≤ srcLabeled (runEvents (initState 0 [mkTargetFile "/a"] [])
        ([Event.etranslate 0, Event.eread "/a" 5 3] ++ [Event.eread "/a" 7 10])) 0) :=
  ⟨by decide,
   fd_C2_amended 0 [mkTargetFile "/a"] [] [Event.etranslate 0, Event.eread "/a" 5 3]
     [Event.eread "/a" 7 10] 0 (by decide)⟩

theorem step_sink (st : EngineState) (e : Event) (k j : Nat)
    (hT : sinkTaint st k ≤ sinkTotal st k)
    (hJ : sinkLab st k j ≤ sinkTotal st k)
    (h : sinkTotal st k + evLen e < 4294967296) :
    sinkTaint (step st e) k ≤ sinkTotal (step st e) k ∧
    sinkLab (step st e) k j ≤ sinkTotal (step st e) k ∧
    sinkTotal st k ≤ sinkTotal (step st e) k ∧
    sinkTaint st k ≤ sinkTaint (step st e) k ∧
    sinkLab st k j ≤ sinkLab (step st e) k j ∧
    sinkTotal (step st e) k ≤ sinkTotal st k + evLen e := by
  cases e with
  | etranslate c => exact ⟨hT, hJ, le_rfl, le_rfl, le_rfl, Nat.le_add_right _ _⟩
  | eopen identity =>
    have hs : (step st (Event.eopen identity)).sinks = st.sinks := by
      simp only [step]; exact (onOpen_parts identity st).2.1
    simp only [sinkTaint, sinkTotal, sinkLab, hs] at *
    exact ⟨hT, hJ, le_rfl, le_rfl, le_rfl, Nat.le_add_right _ _⟩
  | eread identity len lab =>
    have hs : (step st (Event.eread identity len lab)).sinks = st.sinks := by
      simp only [step]; exact (onRead_parts identity len lab st).1
    simp only [sinkTaint, sinkTotal, sinkLab, hs] at *
    exact ⟨hT, hJ, le_rfl, le_rfl, le_rfl, Nat.le_add_right _ _⟩
  | ewrite identity len q taint =>
    simp only [step, onWrite]
    split
    · exact ⟨hT, hJ, le_rfl, le_rfl, le_rfl, Nat.le_add_right _ _⟩
    · split
      · exact ⟨hT, hJ, le_rfl, le_rfl, le_rfl, Nat.le_add_right _ _⟩
      · rename_i k0 hfind
        simp only [sinkTaint, sinkTotal, sinkLab, evLen] at hT hJ h ⊢
        simp only [listModify_getD]
        by_cases hc : k = k0 ∧ k < st.sinks.length
        · rw [if_pos hc]
          simp only [writeUpdate]
          have hmt : min taint len ≤ len := Nat.min_le_right _ _
          have hmq : min (q.getD j 0) len ≤ len := Nat.min_le_right _ _
          have ht : (st.sinks.getD k dSink).totalBytes + len < 4294967296 := h
          have htot : u32 ((st.sinks.getD k dSink).totalBytes + len)
              = (st.sinks.getD k dSink).totalBytes + len := u32_eq_of_lt ht
          cases ha : st.active with
          | false =>
            rw [if_neg (by simp), if_neg (by simp), htot]
            exact ⟨by omega, by omega, by omega, le_rfl, le_rfl, le_rfl⟩
          | true =>
            rw [if_pos rfl, if_pos rfl, htot]
            simp only [writeLab]
            by_cases hq : j < st.sources.length ∧ 0 < min (q.getD j 0) len
            · rw [if_pos hq]
              have hlq : (st.sinks.getD k dSink).labeledBytes j + min (q.getD j 0) len
                  < 4294967296 := by omega
              have hta : (st.sinks.getD k dSink).totalTaintBytes + min taint len
                  < 4294967296 := by omega
              rw [u32_eq_of_lt hlq, u32_eq_of_lt hta]
              exact ⟨by omega, by omega, by omega, by omega, by omega, le_rfl⟩
            · rw [if_neg hq]
              have hta : (st.sinks.getD k dSink).totalTaintBytes + min taint len
                  < 4294967296 := by omega
              rw [u32_eq_of_lt hta]
              exact ⟨by omega, by omega, by omega, by omega, le_rfl, le_rfl⟩
        · rw [if_neg hc]
          exact ⟨hT, hJ, le_rfl, le_rfl, le_rfl, Nat.le_add_right _ _⟩

theorem run_sink (evs : List Event) (st : EngineState) (k j : Nat)
    (hT : sinkTaint st k ≤ sinkTotal st k)
    (hJ : sinkLab st k j ≤ sinkTotal st k)
    (h : sinkTotal st k + lenSum evs < 4294967296) :
    sinkTaint (runEvents st evs) k ≤ sinkTotal (runEvents st evs) k ∧
    sinkLab (runEvents st evs) k j ≤ sinkTotal (runEvents st evs) k ∧
    sinkTotal st k ≤ sinkTotal (runEvents st evs) k ∧
    sinkTaint st k ≤ sinkTaint (runEvents st evs) k ∧
    sinkLab st k j ≤ sinkLab (runEvents st evs) k j ∧
    sinkTotal (runEvents st evs) k ≤ sinkTotal st k + lenSum evs := by
  induction evs generalizing st with
  | nil => exact ⟨hT, hJ, le_rfl, le_rfl, le_rfl, Nat.le_add_right _ _⟩
  | cons e evs ih =>
    simp only [runEvents]
    simp only [lenSum] at h
    have h1 : sinkTotal st k + evLen e < 4294967296 := by omega
    obtain ⟨a1, a2, a3, a4, a5, a6⟩ := step_sink st e k j hT hJ h1
    have h2 : sinkTotal (step st e) k + lenSum evs < 4294967296 := by omega
    obtain ⟨b1, b2, b3, b4, b5, b6⟩ := ih (step st e) a1 a2 h2
    exact ⟨b1, b2, le_trans a3 b3, le_trans a4 b4, le_trans a5 b5,
      by simp only [lenSum]; omega⟩

theorem onWrite_lab_le (st : EngineState) (identity : String) (len : Nat) (q : List Nat)
    (taint : Nat) (k j : Nat) :
    sinkLab (onWrite identity len q taint st) k j ≤ sinkLab st k j + len := by
  unfold onWrite
  split
  · exact Nat.le_add_right _ _
  · split
    · exact Nat.le_add_right _ _
    · rename_i k0 hfind
      simp only [sinkLab]
      simp only [listModify_getD]
      by_cases hc : k = k0 ∧ k < st.sinks.length
      · rw [if_pos hc]
        simp only [writeUpdate]
        cases ha : st.active with
        | false => rw [if_neg (by simp)]; exact Nat.le_add_right _ _
        | true =>
          rw [if_pos rfl]
          simp only [writeLab]
          by_cases hq : j < st.sources.length ∧ 0 < min (q.getD j 0) len
          · rw [if_pos hq]
            have h1 : u32 ((st.sinks.getD k dSink).labeledBytes j + min (q.getD j 0) len)
                ≤ (st.sinks.getD k dSink).labeledBytes j + min (q.getD j 0) len := u32_le _
            have h2 : min (q.getD j 0) len ≤ len := Nat.min_le_right _ _
            omega
          · rw [if_neg hq]; exact Nat.le_add_right _ _
      · rw [if_neg hc]; exact Nat.le_add_right _ _

/-- C3 (amended): for every TargetSink, across any sequence of engine events
whose total payload stays below 2^32 (no uint32_t wraparound),
totalTaintBytes is at most totalBytes at every point and every per-source
entry labeledBytes[j] is monotonically non-decreasing; and in any single
onWrite of length L each individual labeledBytes[j] entry increases by at
most L (the total increment across all entries may exceed L when bytes carry
labels of several sources at once, but never the per-source increment). -/
theorem fd_C3_amended (th : Nat) (srcs sinks : List Target) (evs1 evs2 : List Event)
    (k j : Nat) (st2 : EngineState) (identity : String) (len : Nat) (q : List Nat)
    (taint : Nat) (k2 j2 : Nat)
    (h : lenSum (evs1 ++ evs2) < 4294967296) :
    sinkTaint (runEvents (initState th srcs sinks) (evs1 ++ evs2)) k
      ≤ sinkTotal (runEvents (initState th srcs sinks) (evs1 ++ evs2)) k ∧
    sinkLab (runEvents (initState th srcs sinks) evs1) k j
      ≤ sinkLab (runEvents (initState th srcs sinks) (evs1 ++ evs2)) k j ∧
    sinkLab (step st2 (Event.ewrite identity len q taint)) k2 j2
      ≤ sinkLab st2 k2 j2 + len := by
  obtain ⟨hz1, hz2, hz3⟩ := init_sink_zero th srcs sinks k j
  rw [lenSum_append] at h
  have h1 : sinkTotal (initState th srcs sinks) k + lenSum evs1 < 4294967296 := by omega
  obtain ⟨a1, a2, a3, a4, a5, a6⟩ :=
    run_sink evs1 (initState th srcs sinks) k j (by omega) (by omega) h1
  have h2 : sinkTotal (runEvents (initState th srcs sinks) evs1) k + lenSum evs2
      < 4294967296 := by omega
  obtain ⟨b1, b2, b3, b4, b5, b6⟩ :=
    run_sink evs2 (runEvents (initState th srcs sinks) evs1) k j a1 a2 h2
  rw [runEvents_append]
  refine ⟨b1, b5, ?_⟩
  simp only [step]
  exact onWrite_lab_le st2 identity len q taint k2 j2

/-- C3 is refuted as universally stated: with two registered sources and
taint ACTIVE, a single onWrite of length 1 whose oracle query reports one
byte labeled by source 0 and one byte labeled by source 1 (a doubly-labeled
byte) increments the labeledBytes map of the sink by a total of 2, which exceeds
the event length 1. -/
theorem fd_C3_counterexample :
    sinkLab (runEvents (initState 0 [mkTargetFile "/a", mkTargetFile "/b"]
        [mkTargetFile "/out"]) [Event.etranslate 0]) 0 0 = 0 ∧
    sinkLab (runEvents (initState 0 [mkTargetFile "/a", mkTargetFile "/b"]
        [mkTargetFile "/out"]) [Event.etranslate 0]) 0 1 = 0 ∧
    sinkLab (runEvents (initState 0 [mkTargetFile "/a", mkTargetFile "/b"]
        [mkTargetFile "/out"])
        [Event.etranslate 0, Event.ewrite "/out" 1 [1, 1] 1]) 0 0
      + sinkLab (runEvents (initState 0 [mkTargetFile "/a", mkTargetFile "/b"]
        [mkTargetFile "/out"])
        [Event.etranslate 0, Event.ewrite "/out" 1 [1, 1] 1]) 0 1 = 2 ∧
    (1 : Nat) < 2 := by
  refine ⟨by decide, by decide, by decide, by decide⟩

/-- Witness for fd_C3_amended at a concrete input. -/
theorem fd_C3_witness :
    lenSum ([Event.etranslate 0, Event.ewrite "/out" 4 [2] 3] ++ [Event.ewrite "/out" 6 [1] 1])
        < 4294967296 ∧
    (sinkTaint (runEvents (initState 0 [mkTargetFile "/a"] [mkTargetFile "/out"])
        ([Event.etranslate 0, Event.ewrite "/out" 4 [2] 3] ++ [Event.ewrite "/out" 6 [1] 1])) 0
      ≤ sinkTotal (runEvents (initState 0 [mkTargetFile "/a"] [mkTargetFile "/out"])
        ([Event.etranslate 0, Event.ewrite "/out" 4 [2] 3] ++ [Event.ewrite "/out" 6 [1] 1])) 0 ∧
    sinkLab (runEvents (initState 0 [mkTargetFile "/a"] [mkTargetFile "/out"])
        [Event.etranslate 0, Event.ewrite "/out" 4 [2] 3]) 0 0
      ≤ sinkLab (runEvents (initState 0 [mkTargetFile "/a"] [mkTargetFile "/out"])
        ([Event.etranslate 0, Event.ewrite "/out" 4 [2] 3] ++ [Event.ewrite "/out" 6 [1] 1])) 0 0 ∧
    sinkLab (step (initState 0 [mkTargetFile "/a"] [mkTargetFile "/out"])
        (Event.ewrite "/x" 5 [9] 9)) 0 0
      ≤ sinkLab (initState 0 [mkTargetFile "/a"] [mkTargetFile "/out"]) 0 0 + 5) :=
  ⟨by decide,
   fd_C3_amended 0 [mkTargetFile "/a"] [mkTargetFile "/out"]
     [Event.etranslate 0, Event.ewrite "/out" 4 [2] 3] [Event.ewrite "/out" 6 [1] 1]
     0 0 (initState 0 [mkTargetFile "/a"] [mkTargetFile "/out"]) "/x" 5 [9] 9 0 0
     (by decide)⟩

/-- Number of INACTIVE-to-ACTIVE transitions of the taint flag along a
run of the engine over an event stream. -/
def transCount (st : EngineState) : List Event → Nat
  | [] => 0
  | e :: evs =>
    (if st.active = false ∧ (step st e).active = true then 1 else 0)
      + transCount (step st e) evs

theorem step_active_true (st : EngineState) (e : Event) (ha : st.active = true) :
    (step st e).active = true := by
  cases e with
  | etranslate c => simp [step, on_before_block_translate, ha]
  | eopen identity =>
    simp only [step]; rw [(onOpen_parts identity st).2.2.1]; exact ha
  | eread identity len lab =>
    simp only [step]; rw [(onRead_parts identity len lab st).2.1]; exact ha
  | ewrite identity len q taint =>
    simp only [step]; rw [(onWrite_parts identity len q taint st).2.1]; exact ha

theorem run_active_true (evs : List Event) (st : EngineState) (ha : st.active = true) :
    (runEvents st evs).active = true := by
  induction evs generalizing st with
  | nil => exact ha
  | cons e evs ih => simp only [runEvents]; exact ih (step st e) (step_active_true st e ha)

theorem transCount_le (evs : List Event) (st : EngineState) :
    transCount st evs ≤ (if st.active = true then 0 else 1) := by
  induction evs generalizing st with
  | nil => simp [transCount]
  | cons e evs ih =>
    simp only [transCount]
    cases hst : st.active with
    | true =>
      rw [if_neg (by simp [hst]), if_pos rfl]
      have hs := step_active_true st e hst
      have := ih (step st e)
      rw [if_pos hs] at this
      omega
    | false =>
      cases hstep : (step st e).active with
      | true =>
        have hna : ¬(false = true) := by simp
        rw [if_pos (And.intro rfl rfl), if_neg hna]
        have := ih (step st e)
        rw [if_pos hstep] at this
        omega
      | false =>
        have hn1 : ¬(false = false ∧ false = true) := by simp
        have hna : ¬(false = true) := by simp
        rw [if_neg hn1, if_neg hna]
        have := ih (step st e)
        have hn2 : ¬((step st e).active = true) := by simp [hstep]
        rw [if_neg hn2] at this
        omega

theorem run_active_sound (evs : List Event) (st : EngineState)
    (hrun : (runEvents st evs).active = true) :
    st.active = true ∨ ∃ c, Event.etranslate c ∈ evs ∧ st.enableTaintAt ≤ c := by
  induction evs generalizing st with
  | nil => exact Or.inl hrun
  | cons e evs ih =>
    simp only [runEvents] at hrun
    rcases ih (step st e) hrun with hs | ⟨c, hc1, hc2⟩
    · cases e with
      | etranslate c =>
        by_cases hact : st.active = true
        · exact Or.inl hact
        · have hfa : st.active = false := by
            cases hb : st.active
            · rfl
            · exact absurd hb hact
          right
          refine ⟨c, by simp, ?_⟩
          simp only [step, on_before_block_translate, hfa] at hs
          simpa using hs
      | eopen identity =>
        left
        simp only [step] at hs
        rwa [(onOpen_parts identity st).2.2.1] at hs
      | eread identity len lab =>
        left
        simp only [step] at hs
        rwa [(onRead_parts identity len lab st).2.1] at hs
      | ewrite identity len q taint =>
        left
        simp only [step] at hs
        rwa [(onWrite_parts identity len q taint st).2.1] at hs
    · rw [step_enable] at hc2
      exact Or.inr ⟨c, List.mem_cons_of_mem _ hc1, hc2⟩

/-- C4: the taint activation flag is one-way: starting ACTIVE it stays
ACTIVE over any events; once the run reports ACTIVE it stays ACTIVE over any
further events of the same session; starting INACTIVE, the flag can only
have become ACTIVE at a block-translation event whose executed-instruction
count had reached the configured threshold (never before the threshold, the
check being made only at translation boundaries); and the INACTIVE-to-ACTIVE
transition happens at most once per session. -/
theorem fd_C4 (st : EngineState) (evs evs2 : List Event) :
    (st.active = true → (runEvents st evs).active = true) ∧
    ((runEvents st evs).active = true →
      (runEvents st (evs ++ evs2)).active = true) ∧
    (st.active = false → (runEvents st evs).active = true →
      ∃ c, Event.etranslate c ∈ evs ∧ st.enableTaintAt ≤ c) ∧
    transCount st evs ≤ 1 := by
  refine ⟨run_active_true evs st, ?_, ?_, ?_⟩
  · intro h
    rw [runEvents_append]
    exact run_active_true evs2 _ h
  · intro hf hrun
    rcases run_active_sound evs st hrun with hs | hex
    · rw [hf] at hs; cases hs
    · exact hex
  · refine le_trans (transCount_le evs st) ?_
    split <;> omega

/-- Witness for fd_C4 at a concrete input: threshold 5, a translation event
at instruction count 7 activates the flag, later events keep it active, and
exactly one transition occurs. -/
theorem fd_C4_witness :
    (runEvents (initState 5 [] []) ([Event.etranslate 7] ++ [Event.etranslate 1])).active
        = true ∧
    (∃ c, Event.etranslate c ∈ [Event.etranslate 7]
        ∧ (initState 5 [] []).enableTaintAt ≤ c) ∧
    transCount (initState 5 [] []) [Event.etranslate 7] ≤ 1 :=
  ⟨(fd_C4 (initState 5 [] []) [Event.etranslate 7] [Event.etranslate 1]).2.1 (by decide),
   (fd_C4 (initState 5 [] []) [Event.etranslate 7] [Event.etranslate 1]).2.2.1
     (by decide) (by decide),
   (fd_C4 (initState 5 [] []) [Event.etranslate 7] [Event.etranslate 1]).2.2.2⟩

/-- The Dependency_File plugin structure (dependency_file_def.h lines
26-34): the source and sink file names default to the empty string, debug to
false, and enableTaintAt — the instruction count at which to enable taint —
defaults to UINT32_MAX. -/
structure Dependency_File where
  sourceFile : String := ""
  sinkFile : String := ""
  debug : Bool := false
  enableTaintAt : Nat := 4294967295

/-- The global plugin structure instance (dependency_file_def.h line 36),
default-initialized. -/
def dependency_file : Dependency_File := {}

/-- Modelled from the spec: the body of getFileName (dependency_file_def.h
lines 46-60) is not under src.  Per the header doc and spec section 4.4 it
resolves a file descriptor to a file name through OS introspection —
modelled as a lookup in the descriptor table of the process — and returns the
empty string when the name cannot be fetched. -/
def getFileName (table : List (Nat × String)) (fd : Nat) : String :=
  match table.lookup fd with
  | some name => name
  | none => ""

/-- Modelled from the spec: the body of labelBufferContents
(dependency_file_def.h lines 83-100) is not under src.  Per the header doc
it labels the buffer contents and returns the number of bytes labeled,
returning zero if taint2 is not enabled; the labelable byte count of the oracle
is passed explicitly and clamped to the buffer length. -/
def labelBufferContents (taint2Enabled : Bool) (labelable length : Nat) : Nat :=
  if taint2Enabled then min labelable length else 0

/-- Modelled from the spec: the body of queryBufferContents
(dependency_file_def.h lines 260-278) is not under src.  Per the header doc
it returns the number of tainted bytes in the buffer, or a negative integer
if taint2 is not enabled. -/
def queryBufferContents (taint2Enabled : Bool) (tainted length : Nat) : Int :=
  if taint2Enabled then ((min tainted length : Nat) : Int) else -1

theorem onRead_labeled_inactive (identity : String) (len lab : Nat) (st : EngineState)
    (ha : st.active = false) (i : Nat) :
    srcLabeled (onRead identity len lab st) i = srcLabeled st i := by
  unfold onRead
  split
  · rfl
  · split
    · rfl
    · rename_i i0 hfind
      simp only [srcLabeled]
      simp only [listModify_getD]
      by_cases hcnd : i = i0 ∧ i < st.sources.length
      · rw [if_pos hcnd]
        simp [readUpdate, ha]
      · rw [if_neg hcnd]

theorem onWrite_taint_inactive (identity : String) (len : Nat) (q : List Nat)
    (taint : Nat) (st : EngineState) (ha : st.active = false) (k j : Nat) :
    sinkTaint (onWrite identity len q taint st) k = sinkTaint st k ∧
    sinkLab (onWrite identity len q taint st) k j = sinkLab st k j := by
  unfold onWrite
  split
  · exact ⟨rfl, rfl⟩
  · split
    · exact ⟨rfl, rfl⟩
    · rename_i k0 hfind
      simp only [sinkTaint, sinkLab]
      simp only [listModify_getD]
      by_cases hcnd : k = k0 ∧ k < st.sinks.length
      · rw [if_pos hcnd]
        constructor
        · simp [writeUpdate, ha]
        · simp [writeUpdate, ha]
      · rw [if_neg hcnd]
        exact ⟨rfl, rfl⟩

/-- C6: when the taint oracle is inactive, labeling a buffer range returns 0
bytes labeled, querying a buffer range reports unavailable (a negative
result), and the engine counts all taint-related fields as zero/unchanged
without raising an error: an inactive onRead leaves the labeledBytes of
every source unchanged and an inactive onWrite leaves the totalTaintBytes
and per-source labeledBytes map of every sink unchanged. -/
theorem fd_C6 (labelable tainted len lab taint : Nat) (identity : String)
    (st : EngineState) (q : List Nat) (i k j : Nat)
    (ha : st.active = false) :
    labelBufferContents false labelable len = 0 ∧
    queryBufferContents false tainted len < 0 ∧
    srcLabeled (onRead identity len lab st) i = srcLabeled st i ∧
    sinkTaint (onWrite identity len q taint st) k = sinkTaint st k ∧
    sinkLab (onWrite identity len q taint st) k j = sinkLab st k j := by
  have hq : queryBufferContents false tainted len = -1 := rfl
  refine ⟨rfl, by rw [hq]; decide, onRead_labeled_inactive identity len lab st ha i,
    (onWrite_taint_inactive identity len q taint st ha k j).1,
    (onWrite_taint_inactive identity len q taint st ha k j).2⟩

/-- Witness for fd_C6 at a concrete input (an inactive state, with the
identity matching the registered source and sink). -/
theorem fd_C6_witness :
    labelBufferContents false 7 3 = 0 ∧
    queryBufferContents false 7 3 < 0 ∧
    srcLabeled (onRead "/a" 5 5 (initState 9 [mkTargetFile "/a"] [mkTargetFile "/a"])) 0
      = srcLabeled (initState 9 [mkTargetFile "/a"] [mkTargetFile "/a"]) 0 ∧
    sinkTaint (onWrite "/a" 5 [5] 5 (initState 9 [mkTargetFile "/a"] [mkTargetFile "/a"])) 0
      = sinkTaint (initState 9 [mkTargetFile "/a"] [mkTargetFile "/a"]) 0 ∧
    sinkLab (onWrite "/a" 5 [5] 5 (initState 9 [mkTargetFile "/a"] [mkTargetFile "/a"])) 0 0
      = sinkLab (initState 9 [mkTargetFile "/a"] [mkTargetFile "/a"]) 0 0 :=
  fd_C6 7 7 3 5 5 "/a" (initState 9 [mkTargetFile "/a"] [mkTargetFile "/a"]) [5] 0 0 0 rfl

/-- C7: endpoint resolution is total (getFileName always returns a string)
and returns the empty string whenever the handle cannot be resolved, and the
engine treats an empty resolution exactly like an identity that matches no
registered endpoint: open, read and write events with an empty identity, and
events whose identity matches no registered source or sink, leave the whole
engine state — every counter and every flag — unchanged. -/
theorem fd_C7 (table : List (Nat × String)) (fd : Nat) (st : EngineState)
    (len lab taint : Nat) (q : List Nat) (identity : String)
    (hfd : table.lookup fd = none)
    (hs : st.sources.findIdx? (matchesSource identity) = none)
    (hk : st.sinks.findIdx? (matchesSink identity) = none) :
    getFileName table fd = "" ∧
    onOpen "" st = st ∧
    onRead "" len lab st = st ∧
    onWrite "" len q taint st = st ∧
    onOpen identity st = st ∧
    onRead identity len lab st = st ∧
    onWrite identity len q taint st = st := by
  refine ⟨by simp [getFileName, hfd], by simp [onOpen], by simp [onRead],
    by simp [onWrite], ?_, ?_, ?_⟩
  · unfold onOpen
    split
    · rfl
    · rw [hs]
  · unfold onRead
    split
    · rfl
    · rw [hs]
  · unfold onWrite
    split
    · rfl
    · rw [hk]

/-- Witness for fd_C7 at a concrete input. -/
theorem fd_C7_witness :
    getFileName [(3, "/a")] 5 = "" ∧
    onOpen "" (initState 0 [mkTargetFile "/x"] [mkTargetFile "/y"])
      = initState 0 [mkTargetFile "/x"] [mkTargetFile "/y"] ∧
    onRead "" 4 4 (initState 0 [mkTargetFile "/x"] [mkTargetFile "/y"])
      = initState 0 [mkTargetFile "/x"] [mkTargetFile "/y"] ∧
    onWrite "" 4 [4] 4 (initState 0 [mkTargetFile "/x"] [mkTargetFile "/y"])
      = initState 0 [mkTargetFile "/x"] [mkTargetFile "/y"] ∧
    onOpen "/z" (initState 0 [mkTargetFile "/x"] [mkTargetFile "/y"])
      = initState 0 [mkTargetFile "/x"] [mkTargetFile "/y"] ∧
    onRead "/z" 4 4 (initState 0 [mkTargetFile "/x"] [mkTargetFile "/y"])
      = initState 0 [mkTargetFile "/x"] [mkTargetFile "/y"] ∧
    onWrite "/z" 4 [4] 4 (initState 0 [mkTargetFile "/x"] [mkTargetFile "/y"])
      = initState 0 [mkTargetFile "/x"] [mkTargetFile "/y"] :=
  fd_C7 [(3, "/a")] 5 (initState 0 [mkTargetFile "/x"] [mkTargetFile "/y"])
    4 4 4 [4] "/z" (by decide) (by decide) (by decide)

theorem step_inactive (st : EngineState) (e : Event) (i k j : Nat)
    (ha : st.active = false)
    (he : ∀ c, e = Event.etranslate c → c < st.enableTaintAt) :
    (step st e).active = false ∧
    srcLabeled (step st e) i = srcLabeled st i ∧
    sinkTaint (step st e) k = sinkTaint st k ∧
    sinkLab (step st e) k j = sinkLab st k j := by
  cases e with
  | etranslate c =>
    have hc := he c rfl
    refine ⟨?_, rfl, rfl, rfl⟩
    simp only [step, on_before_block_translate, ha]
    simp [Nat.not_le.mpr hc]
  | eopen identity =>
    have hp := onOpen_parts identity st
    refine ⟨?_, ?_, ?_, ?_⟩
    · simp only [step]; rw [hp.2.2.1]; exact ha
    · simp only [step, srcLabeled]; rw [hp.1]
    · simp only [step, sinkTaint]; rw [hp.2.1]
    · simp only [step, sinkLab]; rw [hp.2.1]
  | eread identity len lab =>
    have hp := onRead_parts identity len lab st
    refine ⟨?_, ?_, ?_, ?_⟩
    · simp only [step]; rw [hp.2.1]; exact ha
    · simp only [step]; exact onRead_labeled_inactive identity len lab st ha i
    · simp only [step, sinkTaint]; rw [hp.1]
    · simp only [step, sinkLab]; rw [hp.1]
  | ewrite identity len q taint =>
    have hp := onWrite_parts identity len q taint st
    refine ⟨?_, ?_, ?_, ?_⟩
    · simp only [step]; rw [hp.2.1]; exact ha
    · simp only [step, srcLabeled]; rw [hp.1]
    · simp only [step]; exact (onWrite_taint_inactive identity len q taint st ha k j).1
    · simp only [step]; exact (onWrite_taint_inactive identity len q taint st ha k j).2

theorem run_inactive (evs : List Event) (st : EngineState) (i k j : Nat)
    (ha : st.active = false)
    (hc : translateCountsBelow st.enableTaintAt evs = true) :
    (runEvents st evs).active = false ∧
    srcLabeled (runEvents st evs) i = srcLabeled st i ∧
    sinkTaint (runEvents st evs) k = sinkTaint st k ∧
    sinkLab (runEvents st evs) k j = sinkLab st k j := by
  induction evs generalizing st with
  | nil => exact ⟨ha, rfl, rfl, rfl⟩
  | cons e evs ih =>
    simp only [runEvents]
    have hee : ∀ c, e = Event.etranslate c → c < st.enableTaintAt := by
      intro c hec
      subst hec
      simp only [translateCountsBelow, Bool.and_eq_true, decide_eq_true_eq] at hc
      exact hc.1
    obtain ⟨p1, p2, p3, p4⟩ := step_inactive st e i k j ha hee
    have hc2 : translateCountsBelow (step st e).enableTaintAt evs = true := by
      rw [step_enable]
      cases e with
      | etranslate c =>
        simp only [translateCountsBelow, Bool.and_eq_true] at hc
        exact hc.2
      | eopen identity => exact hc
      | eread identity len lab => exact hc
      | ewrite identity len q taint => exact hc
    obtain ⟨q1, q2, q3, q4⟩ := ih (step st e) p1 hc2
    exact ⟨q1, q2.trans p2, q3.trans p3, q4.trans p4⟩

/-- C10: with no threshold configured at session setup, the Dependency_File
structure defaults enableTaintAt to UINT32_MAX = 2^32 - 1, so over any event
stream in which every observed block-translation instruction count is below
2^32 - 1 the taint oracle stays INACTIVE and all taint-related counters
(the labeledBytes of every source, the totalTaintBytes and per-source
labeledBytes map of every sink) stay zero. -/
theorem fd_C10 (srcs sinks : List Target) (evs : List Event) (i k j : Nat)
    (hc : translateCountsBelow 4294967295 evs = true) :
    dependency_file.enableTaintAt = 4294967295 ∧
    (runEvents (initState dependency_file.enableTaintAt srcs sinks) evs).active = false ∧
    srcLabeled (runEvents (initState dependency_file.enableTaintAt srcs sinks) evs) i = 0 ∧
    sinkTaint (runEvents (initState dependency_file.enableTaintAt srcs sinks) evs) k = 0 ∧
    sinkLab (runEvents (initState dependency_file.enableTaintAt srcs sinks) evs) k j
      = 0 := by
  obtain ⟨r1, r2, r3, r4⟩ :=
    run_inactive evs (initState dependency_file.enableTaintAt srcs sinks) i k j rfl hc
  obtain ⟨z1, z2⟩ := init_src_zero dependency_file.enableTaintAt srcs sinks i
  obtain ⟨y1, y2, y3⟩ := init_sink_zero dependency_file.enableTaintAt srcs sinks k j
  exact ⟨rfl, r1, by rw [r2, z1], by rw [r3, y2], by rw [r4, y1]⟩

/-- Witness for fd_C10 at a concrete input: translation events below the
default threshold and a read carrying an oracle response leave the flag
INACTIVE and all taint counters zero. -/
theorem fd_C10_witness :
    translateCountsBelow 4294967295
        [Event.etranslate 100, Event.eread "/a" 5 5, Event.ewrite "/b" 5 [5] 5] = true ∧
    (dependency_file.enableTaintAt = 4294967295 ∧
    (runEvents (initState dependency_file.enableTaintAt [mkTargetFile "/a"]
        [mkTargetFile "/b"])
        [Event.etranslate 100, Event.eread "/a" 5 5, Event.ewrite "/b" 5 [5] 5]).active
        = false ∧
    srcLabeled (runEvents (initState dependency_file.enableTaintAt [mkTargetFile "/a"]
        [mkTargetFile "/b"])
        [Event.etranslate 100, Event.eread "/a" 5 5, Event.ewrite "/b" 5 [5] 5]) 0 = 0 ∧
    sinkTaint (runEvents (initState dependency_file.enableTaintAt [mkTargetFile "/a"]
        [mkTargetFile "/b"])
        [Event.etranslate 100, Event.eread "/a" 5 5, Event.ewrite "/b" 5 [5] 5]) 0 = 0 ∧
    sinkLab (runEvents (initState dependency_file.enableTaintAt [mkTargetFile "/a"]
        [mkTargetFile "/b"])
        [Event.etranslate 100, Event.eread "/a" 5 5, Event.ewrite "/b" 5 [5] 5]) 0 0 = 0) :=
  ⟨by decide,
   fd_C10 [mkTargetFile "/a"] [mkTargetFile "/b"]
     [Event.etranslate 100, Event.eread "/a" 5 5, Event.ewrite "/b" 5 [5] 5] 0 0 0
     (by decide)⟩

theorem initSourcesAux_index (n : Nat) (ts : List Target) (i : Nat) (hi : i < ts.length) :
    ((initSourcesAux n ts).getD i dSource).index = n + i := by
  induction ts generalizing n i with
  | nil => simp at hi
  | cons t ts ih =>
    cases i with
    | zero => simp [initSourcesAux, TargetSource.make]
    | succ m =>
      simp only [initSourcesAux, List.getD_cons_succ]
      rw [ih (n + 1) m (by simpa using hi)]
      omega

theorem initSinksAux_index (n : Nat) (ts : List Target) (k : Nat) (hk : k < ts.length) :
    ((initSinksAux n ts).getD k dSink).index = n + k := by
  induction ts generalizing n k with
  | nil => simp at hk
  | cons t ts ih =>
    cases k with
    | zero => simp [initSinksAux, TargetSink.make]
    | succ m =>
      simp only [initSinksAux, List.getD_cons_succ]
      rw [ih (n + 1) m (by simpa using hk)]
      omega

theorem step_srcIndex (st : EngineState) (e : Event) (i : Nat) :
    srcIndex (step st e) i = srcIndex st i := by
  cases e with
  | etranslate c => rfl
  | eopen identity =>
    simp only [step, srcIndex]; rw [(onOpen_parts identity st).1]
  | ewrite identity len q taint =>
    simp only [step, srcIndex]; rw [(onWrite_parts identity len q taint st).1]
  | eread identity len lab =>
    simp only [step, onRead]
    split
    · rfl
    · split
      · rfl
      · rename_i i0 hfind
        simp only [srcIndex]
        simp only [listModify_getD]
        by_cases hcnd : i = i0 ∧ i < st.sources.length
        · rw [if_pos hcnd]; simp [readUpdate]
        · rw [if_neg hcnd]

theorem step_sinkIndex (st : EngineState) (e : Event) (k : Nat) :
    sinkIndex (step st e) k = sinkIndex st k := by
  cases e with
  | etranslate c => rfl
  | eopen identity =>
    simp only [step, sinkIndex]; rw [(onOpen_parts identity st).2.1]
  | eread identity len lab =>
    simp only [step, sinkIndex]; rw [(onRead_parts identity len lab st).1]
  | ewrite identity len q taint =>
    simp only [step, onWrite]
    split
    · rfl
    · split
      · rfl
      · rename_i k0 hfind
        simp only [sinkIndex]
        simp only [listModify_getD]
        by_cases hcnd : k = k0 ∧ k < st.sinks.length
        · rw [if_pos hcnd]; simp [writeUpdate]
        · rw [if_neg hcnd]

theorem run_srcIndex (evs : List Event) (st : EngineState) (i : Nat) :
    srcIndex (runEvents st evs) i = srcIndex st i := by
  induction evs generalizing st with
  | nil => rfl
  | cons e evs ih => simp only [runEvents]; rw [ih (step st e), step_srcIndex]

theorem run_sinkIndex (evs : List Event) (st : EngineState) (k : Nat) :
    sinkIndex (runEvents st evs) k = sinkIndex st k := by
  induction evs generalizing st with
  | nil => rfl
  | cons e evs ih => simp only [runEvents]; rw [ih (step st e), step_sinkIndex]

theorem registerAll_sources (ts : List Target) (r : Registry) (hf : r.frozen = false) :
    (ts.foldl (fun r t => (registerSource r t).1) r).sources = r.sources ++ ts := by
  induction ts generalizing r with
  | nil => simp
  | cons t ts ih =>
    simp only [List.foldl_cons]
    have h1 : (registerSource r t).1 = { r with sources := r.sources ++ [t] } := by
      simp [registerSource, hf]
    rw [h1, ih _ (by simp [hf])]
    simp

/-- C8: the registry hands out dense zero-based indices in registration
order: a registration in the build phase returns an index equal to the
number of endpoints registered before it and appends the target, so the
frozen registry lists targets in registration order and the i-th
TargetSource / k-th TargetSink of a session stores index i / k; these stored
indices never change over any event run (never reused or reassigned); and a
registration attempted after the registry is frozen is rejected, leaving the
registry unchanged and yielding no index. -/
theorem fd_C8 (r₁ r₂ : Registry) (t : Target) (ts : List Target)
    (th : Nat) (srcs sinks : List Target) (evs : List Event) (i k : Nat)
    (hf1 : r₁.frozen = true) (hf2 : r₂.frozen = false)
    (hi : i < srcs.length) (hk : k < sinks.length) :
    registerSource r₁ t = (r₁, none) ∧
    registerSink r₁ t = (r₁, none) ∧
    (registerSource r₂ t).2 = some r₂.sources.length ∧
    (registerSource r₂ t).1.sources = r₂.sources ++ [t] ∧
    (registerSink r₂ t).2 = some r₂.sinks.length ∧
    (registryOf ts).sources = ts ∧
    srcIndex (initState th srcs sinks) i = i ∧
    sinkIndex (initState th srcs sinks) k = k ∧
    srcIndex (runEvents (initState th srcs sinks) evs) i = i ∧
    sinkIndex (runEvents (initState th srcs sinks) evs) k = k := by
  have hinit1 : srcIndex (initState th srcs sinks) i = i := by
    simp only [srcIndex, initState]
    rw [initSourcesAux_index 0 srcs i hi]
    omega
  have hinit2 : sinkIndex (initState th srcs sinks) k = k := by
    simp only [sinkIndex, initState]
    rw [initSinksAux_index 0 sinks k hk]
    omega
  refine ⟨by simp [registerSource, hf1], by simp [registerSink, hf1],
    by simp [registerSource, hf2], by simp [registerSource, hf2],
    by simp [registerSink, hf2], ?_, hinit1, hinit2, ?_, ?_⟩
  · unfold registryOf
    rw [registerAll_sources ts Registry.empty rfl]
    rfl
  · rw [run_srcIndex, hinit1]
  · rw [run_sinkIndex, hinit2]

/-- Witness for fd_C8 at a concrete input. -/
theorem fd_C8_witness :
    registerSource ⟨[], [], true⟩ (mkTargetFile "/a") = (⟨[], [], true⟩, none) ∧
    registerSink ⟨[], [], true⟩ (mkTargetFile "/a") = (⟨[], [], true⟩, none) ∧
    (registerSource Registry.empty (mkTargetFile "/a")).2
      = some Registry.empty.sources.length ∧
    (registerSource Registry.empty (mkTargetFile "/a")).1.sources
      = Registry.empty.sources ++ [mkTargetFile "/a"] ∧
    (registerSink Registry.empty (mkTargetFile "/a")).2
      = some Registry.empty.sinks.length ∧
    (registryOf [mkTargetFile "/a", mkTargetFile "/b"]).sources
      = [mkTargetFile "/a", mkTargetFile "/b"] ∧
    srcIndex (initState 0 [mkTargetFile "/a", mkTargetFile "/b"] [mkTargetFile "/c"]) 1
      = 1 ∧
    sinkIndex (initState 0 [mkTargetFile "/a", mkTargetFile "/b"] [mkTargetFile "/c"]) 0
      = 0 ∧
    srcIndex (runEvents (initState 0 [mkTargetFile "/a", mkTargetFile "/b"]
        [mkTargetFile "/c"]) [Event.etranslate 0, Event.eread "/b" 5 5]) 1 = 1 ∧
    sinkIndex (runEvents (initState 0 [mkTargetFile "/a", mkTargetFile "/b"]
        [mkTargetFile "/c"]) [Event.etranslate 0, Event.eread "/b" 5 5]) 0 = 0 :=
  fd_C8 ⟨[], [], true⟩ Registry.empty (mkTargetFile "/a")
    [mkTargetFile "/a", mkTargetFile "/b"] 0 [mkTargetFile "/a", mkTargetFile "/b"]
    [mkTargetFile "/c"] [Event.etranslate 0, Event.eread "/b" 5 5] 1 0
    rfl rfl (by decide) (by decide)
